import Mathlib

/-!
Verification development for the `my-blockchain` repository.

The subject of the claims is the proof-of-stake ledger implemented in
`src/blockchain.ts` (class `Blockchain`), together with its collaborators:

* `Transaction` / `TransactionClass` from `src/transaction.ts`;
* the five-field `Block` (index, timestamp, transactions, previousHash,
  validator, plus nonce and hash) that `src/blockchain.ts` is written
  against (the variant with `forgeBlock` / `isValidStructure`, found in
  the repository as the PoS block class);
* the proof-of-work mining loop `Block.mineBlock` (identical text in
  `src/block.ts` and in the PoS block class).

Modelling conventions:

* JavaScript numbers used as token amounts are modelled as `Int`
  (every claim is about exact integer arithmetic on amounts).
* SHA-256 hashing (`CryptoUtils.hash`) is an external cryptographic
  capability; it is modelled as an explicit parameter
  `hashFn : HashInput → List Char` — an arbitrary deterministic function
  of exactly the fields the source serializes into the hash.  Hash
  strings are modelled as `List Char` (JS `substring(0, d)` becomes
  `List.take d`).
* `uuid` values and `Date.now()` readings are external oracles; functions
  that create transactions or blocks take them as explicit arguments.
* JavaScript `Map<string, number>` (insertion-ordered) is modelled as an
  association list `BalMap` with `Map.get`/`Map.set`/`Map.has` translated
  to `mlookup`/`mset`/`(mlookup _ _).isSome`; `Map.set` replaces an
  existing binding in place and appends a new binding at the end, which
  matches JS insertion-order semantics.
* `throw` in a method is modelled by returning an error value alongside
  the state reached at the moment of the throw (mutations performed
  before the throw persist on the ledger object, and the model keeps
  them).
-/

/-- Transaction type enumeration from `src/transaction.ts`
(`'transfer' | 'mint' | 'reward' | 'genesis'`). -/
inductive TxType where
  | transfer
  | mint
  | reward
  | genesis
deriving DecidableEq, Repr

/-- A transaction, after `TransactionClass` in `src/transaction.ts`.
The derived `hash` field is a pure function of the remaining fields
(`calculateHash`), so it is not stored separately here; no claim
inspects it. -/
structure Tx where
  id : String
  from_ : Option String
  to_ : String
  amount : Int
  type : TxType
  timestamp : Int
  signature : Option String
deriving DecidableEq, Repr

/-- JS truthiness of a `string | null` value: `null` and the empty
string are falsy. -/
def truthyStr : Option String → Bool
  | none => false
  | some s => !(s == "")

/-- `TransactionClass.isValid` from `src/transaction.ts`: system-originated
transactions (null sender, or type mint/reward/genesis) are unconditionally
valid; a transfer needs truthy `from` and `to` and a positive amount.  The
source deliberately never inspects the signature ("For demo purposes, we'll
be lenient about signatures"). -/
def Tx.isValid (t : Tx) : Bool :=
  if t.from_ == none || t.type == TxType.reward || t.type == TxType.mint
      || t.type == TxType.genesis then
    true
  else if t.type == TxType.transfer then
    if !(truthyStr t.from_) || t.to_ == "" then false
    else if t.amount ≤ 0 then false
    else true
  else
    true

/-- `Transaction.createMintTransaction(to, amount)`: sender `null`, type
`mint`; the fresh uuid and `Date.now()` reading are oracle arguments. -/
def createMintTransaction (id : String) (ts : Int) (recipient : String) (amount : Int) : Tx :=
  { id := id, from_ := none, to_ := recipient, amount := amount,
    type := TxType.mint, timestamp := ts, signature := none }

/-- The tuple of fields that the PoS block's `calculateHash` serializes
into `CryptoUtils.hash`: `{index, timestamp, transactions, previousHash,
validator, nonce}`. -/
structure HashInput where
  index : Nat
  timestamp : Int
  transactions : List Tx
  previousHash : List Char
  validator : Option String
  nonce : Nat
deriving DecidableEq

/-- A block, after the PoS `Block` class (`index`, `timestamp`,
`transactions`, `previousHash`, `validator`, `nonce`, `hash`). -/
structure Block where
  index : Nat
  timestamp : Int
  transactions : List Tx
  previousHash : List Char
  validator : Option String
  nonce : Nat
  hash : List Char
deriving DecidableEq, Repr

/-- `Block.calculateHash()`: the supplied hash capability applied to the
block's current fields (the stored `hash` itself is not an input). -/
def calculateHash (hashFn : HashInput → List Char) (b : Block) : List Char :=
  hashFn { index := b.index, timestamp := b.timestamp,
           transactions := b.transactions, previousHash := b.previousHash,
           validator := b.validator, nonce := b.nonce }

/-- The `Block` constructor: stores the given fields, sets `nonce = 0` and
computes the initial hash. -/
def mkBlock (hashFn : HashInput → List Char) (index : Nat) (timestamp : Int)
    (transactions : List Tx) (previousHash : List Char)
    (validator : Option String) : Block :=
  let b : Block := { index := index, timestamp := timestamp,
                     transactions := transactions, previousHash := previousHash,
                     validator := validator, nonce := 0, hash := [] }
  { b with hash := calculateHash hashFn b }

/-- `Block.hasValidTransactions()`: every contained transaction is valid
(short-circuits on the first invalid one). -/
def Block.hasValidTransactions (b : Block) : Bool :=
  b.transactions.all Tx.isValid

/-- `Block.isValidStructure()`: dynamic `typeof` checks on the block's
fields.  In this typed embedding every field has the checked type by
construction, so the check is identically true. -/
def Block.isValidStructure (_b : Block) : Bool :=
  true

/-- `Block.forgeBlock()` (PoS path): recompute the hash once, no search. -/
def forgeBlock (hashFn : HashInput → List Char) (b : Block) : Block :=
  { b with hash := calculateHash hashFn b }

/-- One iteration of the `mineBlock` loop body: increment the nonce, then
recompute the hash over the updated fields. -/
def mineStep (hashFn : HashInput → List Char) (b : Block) : Block :=
  let b' : Block := { b with nonce := b.nonce + 1 }
  { b' with hash := calculateHash hashFn b' }

/-- The guard of the `mineBlock` loop, negated: the first `difficulty`
characters of the stored hash (`substring(0, difficulty)`) all equal `'0'`.
The comparison target is `Array(difficulty + 1).join('0')`, a string of
exactly `difficulty` zero characters. -/
def hitsTarget (difficulty : Nat) (b : Block) : Bool :=
  b.hash.take difficulty == List.replicate difficulty '0'

/-- `Block.mineBlock(difficulty)`, with explicit fuel since the search is
unbounded: returns the mined block and the number of loop iterations
executed, or `none` if the fuel runs out before the target is hit. -/
def mineBlock (hashFn : HashInput → List Char) (difficulty : Nat) :
    Nat → Block → Option (Block × Nat)
  | 0, b => if hitsTarget difficulty b then some (b, 0) else none
  | fuel + 1, b =>
    if hitsTarget difficulty b then some (b, 0)
    else
      match mineBlock hashFn difficulty fuel (mineStep hashFn b) with
      | some (b', n) => some (b', n + 1)
      | none => none

/-- Association-list model of a JS `Map<string, number>`: `set` replaces an
existing binding in place, otherwise appends at the end (insertion order). -/
def mset : List (String × Int) → String → Int → List (String × Int)
  | [], k, v => [(k, v)]
  | (k', v') :: rest, k, v =>
    if k' = k then (k, v) :: rest else (k', v') :: mset rest k v

/-- `Map.get`, as an `Option`. -/
def mlookup : List (String × Int) → String → Option Int
  | [], _ => none
  | (k', v') :: rest, k => if k' = k then some v' else mlookup rest k

/-- `Map.get(k) || 0` — the JS idiom used by `updateBalances` (note that a
cached balance of `0` is falsy in JS, but `0 || 0 = 0`, so `getD 0` is
exact). -/
def mlookupD (m : List (String × Int)) (k : String) : Int :=
  (mlookup m k).getD 0

/-- The balance cache / validator registry type. -/
abbrev BalMap : Type := List (String × Int)

/-- The ledger state: the fields of class `Blockchain` in `src/blockchain.ts`
that the claims are about.  `difficulty`, `blockTime`, `autoForging` and the
callback are never read by the modelled operations and are omitted. -/
structure LState where
  chain : List Block
  pendingTransactions : List Tx
  miningReward : Int
  balances : BalMap
  validators : BalMap
deriving DecidableEq

/-- Signed contribution of one transaction to one address, as read by the
`getBalance` fold: minus the amount when `from === address`, plus the amount
when `to === address`. -/
def txDelta (a : String) (t : Tx) : Int :=
  (if t.to_ = a then t.amount else 0) - (if t.from_ = some a then t.amount else 0)

/-- The `getBalance` fold over every transaction of every block of the
chain — the "derived balance" of the spec. -/
def chainFold (a : String) (chain : List Block) : Int :=
  ((chain.flatMap Block.transactions).map (txDelta a)).sum

/-- Errors a `Blockchain` method can throw. -/
inductive LErr where
  | invalidTx          -- "无法添加无效交易到链上"
  | methodNotFound     -- TypeError: transaction.getTotalCost is not a function
deriving DecidableEq, Repr

/-- `getBalance(address)`: return the cached value if present; otherwise fold
over every finalized transaction, cache the result, and return it.  Returns
the value together with the (possibly) mutated state. -/
def getBalanceSt (st : LState) (a : String) : Int × LState :=
  match mlookup st.balances a with
  | some v => (v, st)
  | none =>
    let b := chainFold a st.chain
    (b, { st with balances := mset st.balances a b })

/-- The first `if` block of `updateBalances` for one transaction: debit the
sender unless `from` is null/empty/`'system'`. -/
def debitStep (m : BalMap) (t : Tx) : BalMap :=
  match t.from_ with
  | some f => if f ≠ "" ∧ f ≠ "system" then mset m f (mlookupD m f - t.amount) else m
  | none => m

/-- The second `if` block of `updateBalances` for one transaction: credit
the recipient unless `to` is empty/`'burn'`. -/
def creditStep (m : BalMap) (t : Tx) : BalMap :=
  if t.to_ ≠ "" ∧ t.to_ ≠ "burn" then mset m t.to_ (mlookupD m t.to_ + t.amount) else m

/-- `updateBalances` applied to a single transaction: debit, then credit. -/
def applyTxBal (m : BalMap) (t : Tx) : BalMap :=
  creditStep (debitStep m t) t

/-- `updateBalances(block)`: fold the per-transaction update over the block's
transactions in order. -/
def updateBalances (m : BalMap) (txs : List Tx) : BalMap :=
  txs.foldl applyTxBal m

/-- `createTransaction(transaction)`: reject invalid transactions; for a
transfer from a truthy, non-`'system'` sender, read the sender's balance
(which caches it) and then call `transaction.getTotalCost()` — a method no
transaction class in the repository defines, so the call throws a TypeError
before the balance comparison can happen; otherwise enqueue. -/
def createTransaction (st : LState) (t : Tx) : LState × Option LErr :=
  if !t.isValid then (st, some LErr.invalidTx)
  else
    match t.from_ with
    | some f =>
      if f ≠ "" ∧ f ≠ "system" ∧ t.type = TxType.transfer then
        let st' := (getBalanceSt st f).2
        (st', some LErr.methodNotFound)
      else
        ({ st with pendingTransactions := st.pendingTransactions ++ [t] }, none)
    | none =>
      ({ st with pendingTransactions := st.pendingTransactions ++ [t] }, none)

/-- `mintTokens(to, amount)`: build a mint transaction and submit it through
`createTransaction`. -/
def mintTokens (id : String) (ts : Int) (st : LState) (recipient : String)
    (amount : Int) : LState × Option LErr :=
  createTransaction st (createMintTransaction id ts recipient amount)

/-- The auto-promotion pass at the start of `selectValidator()`: when no
validator is registered, `addValidator` every cached address whose cached
balance is at least 1000 (the `addValidator` stake guard), in cache
insertion order. -/
def promoteValidators (st : LState) : BalMap :=
  if st.validators = [] then
    st.balances.foldl (fun vs p => if p.2 ≥ 1000 then mset vs p.1 p.2 else vs)
      st.validators
  else
    st.validators

/-- `updateValidatorStake(address, newStake)`: if registered, re-stake when
the new stake still meets the 1000 minimum, otherwise remove. -/
def updValidatorStake (vs : BalMap) (a : String) (newStake : Int) : BalMap :=
  if (mlookup vs a).isSome then
    if newStake ≥ 1000 then mset vs a newStake
    else vs.filter (fun p => p.1 ≠ a)
  else vs

/-- A default block used only to give `latestBlock` a total type; every
reachable chain is nonempty, so it is never actually read. -/
def dummyBlock : Block :=
  { index := 0, timestamp := 0, transactions := [], previousHash := [],
    validator := none, nonce := 0, hash := [] }

/-- `getLatestBlock()`: `chain[chain.length - 1]`. -/
def latestBlock (st : LState) : Block :=
  st.chain.getLastD dummyBlock

/-- The successful branch of `forgePendingTransactions` once a validator `v`
has been determined: push the reward (a mint transaction of `miningReward`
to the validator) onto the pending queue, build a block from a copy of the
queue linked to the latest block's hash, forge it, append it, apply
`updateBalances`, refresh the validator's stake from `getBalance` (a cache
read or lazy fill), and clear the queue.  `now` is the `Date.now()` reading
for the block, `rid`/`rts` are the reward transaction's uuid and
timestamp. -/
def forgeQueue (rid : String) (rts : Int) (st : LState) (v : String) : List Tx :=
  st.pendingTransactions ++ [createMintTransaction rid rts v st.miningReward]

/-- The block built and forged by `forgePendingTransactions`: index
`chain.length`, timestamp `Date.now()`, a copy of the augmented pending
queue, the latest block's hash, and the selected validator. -/
def forgedBlock (hashFn : HashInput → List Char) (now : Int) (rid : String)
    (rts : Int) (st : LState) (v : String) : Block :=
  forgeBlock hashFn
    (mkBlock hashFn st.chain.length now (forgeQueue rid rts st v)
      (latestBlock st).hash (some v))

/-- The ledger right after `this.chain.push(block)` and
`this.updateBalances(block)` (the pending queue still holds the augmented
queue at this point). -/
def forgeApplied (hashFn : HashInput → List Char) (now : Int) (rid : String)
    (rts : Int) (st : LState) (v : String) : LState :=
  { st with
    chain := st.chain ++ [forgedBlock hashFn now rid rts st v],
    pendingTransactions := forgeQueue rid rts st v,
    balances := updateBalances st.balances (forgedBlock hashFn now rid rts st v).transactions }

def forgeWith (hashFn : HashInput → List Char) (now : Int) (rid : String)
    (rts : Int) (st : LState) (v : String) : LState × Block :=
  let st1 := forgeApplied hashFn now rid rts st v
  let stake := (getBalanceSt st1 v).1
  let st2 := (getBalanceSt st1 v).2
  let st3 : LState := { st2 with validators := updValidatorStake st2.validators v stake }
  ({ st3 with pendingTransactions := [] }, forgedBlock hashFn now rid rts st v)

/-- `forgePendingTransactions(validatorAddress)`.  The selected validator is
`validatorAddress || this.selectValidator()`.  The stake-weighted random
draw inside `selectValidator` is external nondeterminism; its outcome is
supplied as the oracle `pick` (the address the weighted walk stops at, or
`none`).  When no validator is registered and none can be auto-promoted,
selection yields `null` and forging aborts with no state change. -/
def forgePendingTransactions (hashFn : HashInput → List Char) (now : Int)
    (rid : String) (rts : Int) (st : LState) (validatorAddress : Option String)
    (pick : Option String) : LState × Option Block :=
  match validatorAddress with
  | some v =>
    if v = "" then
      forgeSelecting hashFn now rid rts st pick
    else
      let r := forgeWith hashFn now rid rts st v
      (r.1, some r.2)
  | none => forgeSelecting hashFn now rid rts st pick
where
  /-- The `selectValidator()` path: auto-promote, abort if the registry is
  still empty, otherwise forge with the picked validator (a falsy pick is
  treated as "no validator", as in `if (!selectedValidator)`). -/
  forgeSelecting (hashFn : HashInput → List Char) (now : Int) (rid : String)
      (rts : Int) (st : LState) (pick : Option String) : LState × Option Block :=
    let stp : LState := { st with validators := promoteValidators st }
    if stp.validators = [] then (stp, none)
    else
      match pick with
      | some v =>
        if v = "" then (stp, none)
        else
          let r := forgeWith hashFn now rid rts stp v
          (r.1, some r.2)
      | none => (stp, none)

/-- `isChainValid()` for chain positions `i ≥ 1`: `prev` is `chain[i-1]`,
the list argument is `chain[i..]`.  Checks run in source order: structure,
transaction validity, stored hash versus recomputation, and linkage; the
walk stops at the first failure. -/
def isChainValidAux (hashFn : HashInput → List Char) : Block → List Block → Bool
  | _, [] => true
  | prev, cur :: rest =>
    if !cur.isValidStructure then false
    else if !cur.hasValidTransactions then false
    else if cur.hash ≠ calculateHash hashFn cur then false
    else if cur.previousHash ≠ prev.hash then false
    else isChainValidAux hashFn cur rest

/-- `isChainValid()`: validate every block from index 1 up, never touching
the genesis block at index 0.  The whole body is wrapped in `try/catch` in
the source; in this embedding every check is total, so the catch branch is
dead and the function is a pure boolean. -/
def isChainValid (hashFn : HashInput → List Char) (chain : List Block) : Bool :=
  match chain with
  | [] => true
  | g :: rest => isChainValidAux hashFn g rest

/-- `createGenesisBlock()`: the transaction `('system', 'genesis', 0, 'mint')`
in a block with index 0, timestamp `Date.parse('2024-01-01')`, previous hash
`"0"`.  The genesis transaction's uuid and `Date.now()` timestamp are fixed
oracle values (no claim depends on them). -/
def genesisBlock (hashFn : HashInput → List Char) : Block :=
  mkBlock hashFn 0 1704067200000
    [{ id := "genesis-tx", from_ := some "system", to_ := "genesis", amount := 0,
       type := TxType.mint, timestamp := 1704067200000, signature := none }]
    ['0'] none

/-- The `Blockchain` constructor: genesis chain, empty queue, reward 100,
empty caches. -/
def initState (hashFn : HashInput → List Char) : LState :=
  { chain := [genesisBlock hashFn], pendingTransactions := [],
    miningReward := 100, balances := [], validators := [] }

/-- Contribution of a single block to the `getBalance` fold. -/
def blockFold (a : String) (b : Block) : Int :=
  (b.transactions.map (txDelta a)).sum

/-- Whether `updateBalances` debits address `a` for transaction `t`:
`t.from` is `a` and the debit guard (`from && from !== 'system'`) passes. -/
def debitsB (a : String) (t : Tx) : Bool :=
  t.from_ == some a && !(a == "") && !(a == "system")

/-- Whether `updateBalances` credits address `a` for transaction `t`:
`t.to` is `a` and the credit guard (`to && to !== 'burn'`) passes. -/
def creditsB (a : String) (t : Tx) : Bool :=
  t.to_ == a && !(a == "") && !(a == "burn")

/-- The net change `updateBalances` applies to address `a` for one
transaction. -/
def appliedDeltaT (a : String) (t : Tx) : Int :=
  (if creditsB a t then t.amount else 0) - (if debitsB a t then t.amount else 0)

/-- The net change `updateBalances` applies to address `a` over a
transaction list. -/
def appliedDelta (a : String) (txs : List Tx) : Int :=
  (txs.map (appliedDeltaT a)).sum

/-- Whether `updateBalances` writes the entry of address `a` at all. -/
def touchesB (a : String) (txs : List Tx) : Bool :=
  txs.any (fun t => debitsB a t || creditsB a t)

/-- Addresses that are not one of the sentinel strings treated specially by
`updateBalances`: the empty string (falsy), `'system'` (never debited) and
`'burn'` (never credited). -/
def goodAddr (a : String) : Prop :=
  a ≠ "" ∧ a ≠ "system" ∧ a ≠ "burn"

/-- The chain-linkage invariant: every block's `previousHash` equals its
predecessor's `hash`. -/
def ChainLinked : List Block → Prop
  | [] => True
  | [_] => True
  | a :: b :: rest => b.previousHash = a.hash ∧ ChainLinked (b :: rest)

/-- The ledger invariant: the chain is a nonempty, hash-linked list, and the
balance cache agrees with the `getBalance` fold on every non-sentinel
address (cached entries carry the fold's value; addresses never cached have
a zero fold). -/
structure LedgerInv (st : LState) : Prop where
  ne : st.chain ≠ []
  linked : ChainLinked st.chain
  cached : ∀ a v, goodAddr a → mlookup st.balances a = some v →
    v = chainFold a st.chain
  uncached : ∀ a, goodAddr a → mlookup st.balances a = none →
    chainFold a st.chain = 0

/-- One observable mutation of the ledger, closing over the external
oracles (uuids, clock readings, and the stake-weighted random draw).

* `submit` is a `createTransaction` call with an arbitrary transaction
  (`mintTokens` is the special case of a mint transaction).
* `query` is a `getBalance` call (which may fill the cache).
* `forge` is a `forgePendingTransactions` call that reached the forging
  path with some truthy validator `v` — either the caller's explicit
  argument or any outcome of the stake-weighted selection.
* `registry` covers the operations that mutate only the validator
  registry (`addValidator`, `removeValidator`, `updateValidatorStake`, and
  the auto-promotion performed by an aborted `selectValidator` call); none
  of them touches the chain, the queue or the balance cache, so the
  relation admits an arbitrary new registry.

Every run of the source's public mutators is covered by a sequence of
these steps, so any invariant of this relation holds of the ledger. -/
inductive LStep (hashFn : HashInput → List Char) : LState → LState → Prop where
  | submit (st : LState) (t : Tx) : LStep hashFn st (createTransaction st t).1
  | query (st : LState) (a : String) : LStep hashFn st (getBalanceSt st a).2
  | forge (st : LState) (now : Int) (rid : String) (rts : Int) (v : String)
      (hv : v ≠ "") : LStep hashFn st (forgeWith hashFn now rid rts st v).1
  | registry (st : LState) (vs : BalMap) :
      LStep hashFn st { st with validators := vs }

/-- Ledger states reachable from a freshly constructed `Blockchain` by any
sequence of steps. -/
inductive ReachableL (hashFn : HashInput → List Char) : LState → Prop where
  | init : ReachableL hashFn (initState hashFn)
  | step (st st' : LState) (h : ReachableL hashFn st)
      (hs : LStep hashFn st st') : ReachableL hashFn st'

/-- A concrete hash capability used for witnesses and counterexamples. -/
def cHashW : HashInput → List Char := fun _ => []

/-- A reachable state in which `"alice"` has been queried and cached. -/
def stC1w : LState := (getBalanceSt (initState cHashW) "alice").2

/-- Cache `'burn'` at 0, admit a mint of 5 to `'burn'`, forge with explicit
validator `"v"`: three real ledger operations. -/
def stC1a : LState := (getBalanceSt (initState cHashW) "burn").2

def stC1b : LState := (createTransaction stC1a (createMintTransaction "m1" 0 "burn" 5)).1

def stC1c : LState := (forgeWith cHashW 1 "r1" 1 stC1b "v").1

/-- A reachable two-block state: one forge on the fresh ledger. -/
def stC4w : LState := (forgeWith cHashW 1 "r" 1 (initState cHashW) "v").1

/-- The insufficient transfer used for the C3 witness and counterexample:
`alice` has derived balance 0 and sends 5 to `bob` on a fresh ledger. -/
def txC3 : Tx :=
  { id := "t3", from_ := some "alice", to_ := "bob", amount := 5,
    type := TxType.transfer, timestamp := 0, signature := none }

/-- A null-signature transfer used by the C6 witness and counterexample. -/
def txC6 : Tx :=
  { id := "t6", from_ := some "a", to_ := "b", amount := 1,
    type := TxType.transfer, timestamp := 0, signature := none }

/-- A hash capability and a block for the C8 witness: one mining iteration
reaches the all-zero hash. -/
def hashW0 : HashInput → List Char := fun _ => ['0']

def blkW : Block :=
  { index := 0, timestamp := 0, transactions := [], previousHash := [],
    validator := none, nonce := 0, hash := ['x'] }

/-- Reachable pre-state for the C2 counterexample: `'system'` cached at 0,
then a transfer from `'system'` admitted into the queue (the admission
balance check explicitly exempts `'system'`). -/
def txC2 : Tx :=
  { id := "t2", from_ := some "system", to_ := "a", amount := 5,
    type := TxType.transfer, timestamp := 0, signature := none }

def stC2a : LState := (getBalanceSt (initState cHashW) "system").2

def stC2b : LState := (createTransaction stC2a txC2).1

/-- The four per-block checks of `isChainValid()`, in source order, stated
for block `cur` at some index `i ≥ 1` with predecessor `prev`. -/
def blockOk (hashFn : HashInput → List Char) (prev cur : Block) : Prop :=
  cur.isValidStructure = true
  ∧ cur.hasValidTransactions = true
  ∧ cur.hash = calculateHash hashFn cur
  ∧ cur.previousHash = prev.hash

instance blockOk_decidable (hashFn : HashInput → List Char) (prev cur : Block) :
    Decidable (blockOk hashFn prev cur) := by
  unfold blockOk
  infer_instance

/-! ### Lemmas and claim theorems -/

theorem mlookup_mset_self (m : List (String × Int)) (k : String) (v : Int) :
    mlookup (mset m k v) k = some v := by
  induction m with
  | nil => simp [mset, mlookup]
  | cons p rest ih =>
    obtain ⟨pk, pv⟩ := p
    by_cases h : pk = k
    · simp [mset, mlookup, h]
    · simp [mset, mlookup, h, ih]

theorem mlookup_mset_ne (m : List (String × Int)) (k k' : String) (v : Int)
    (h : k' ≠ k) : mlookup (mset m k v) k' = mlookup m k' := by
  have hk : ¬ (k = k') := fun hh => h hh.symm
  induction m with
  | nil => simp [mset, mlookup, hk]
  | cons p rest ih =>
    obtain ⟨pk, pv⟩ := p
    by_cases hp : pk = k
    · subst hp
      simp [mset, mlookup, hk]
    · by_cases hp' : pk = k'
      · simp [mset, mlookup, hp, hp', h]
      · simp [mset, mlookup, hp, hp', ih]

theorem chainFold_append_block (a : String) (c : List Block) (b : Block) :
    chainFold a (c ++ [b]) = chainFold a c + blockFold a b := by
  simp [chainFold, blockFold]

theorem mlookup_debitStep (m : BalMap) (t : Tx) (a : String) :
    mlookup (debitStep m t) a =
      if debitsB a t then some (mlookupD m a - t.amount) else mlookup m a := by
  rcases hf : t.from_ with _ | f
  · simp [debitStep, debitsB, hf]
  · by_cases hg : f ≠ "" ∧ f ≠ "system"
    · by_cases hfa : f = a
      · subst hfa
        simp [debitStep, debitsB, hf, hg.1, hg.2, mlookup_mset_self, mlookupD]
      · simp [debitStep, debitsB, hf, hg.1, hg.2, hfa,
          mlookup_mset_ne _ _ _ _ (fun hh => hfa hh.symm)]
    · by_cases hfa : f = a
      · subst hfa
        rcases not_and_or.mp hg with hg1 | hg2
        · simp [debitStep, debitsB, hf, hg, not_not.mp hg1]
        · simp [debitStep, debitsB, hf, hg, not_not.mp hg2]
      · simp [debitStep, debitsB, hf, hg, hfa]

theorem mlookup_creditStep (m : BalMap) (t : Tx) (a : String) :
    mlookup (creditStep m t) a =
      if creditsB a t then some (mlookupD m a + t.amount) else mlookup m a := by
  by_cases hg : t.to_ ≠ "" ∧ t.to_ ≠ "burn"
  · by_cases hta : t.to_ = a
    · rw [← hta]
      simp [creditStep, creditsB, hg.1, hg.2, mlookup_mset_self, mlookupD]
    · simp [creditStep, creditsB, hg.1, hg.2, hta,
        mlookup_mset_ne _ _ _ _ (fun hh => hta hh.symm)]
  · by_cases hta : t.to_ = a
    · rw [← hta]
      rcases not_and_or.mp hg with hg1 | hg2
      · simp [creditStep, creditsB, hg, not_not.mp hg1]
      · simp [creditStep, creditsB, hg, not_not.mp hg2]
    · simp [creditStep, creditsB, hg, hta]

theorem mlookup_applyTxBal (m : BalMap) (t : Tx) (a : String) :
    mlookup (applyTxBal m t) a =
      match mlookup m a with
      | some w => some (w + appliedDeltaT a t)
      | none =>
        if debitsB a t || creditsB a t then some (appliedDeltaT a t) else none := by
  unfold applyTxBal appliedDeltaT
  rw [mlookup_creditStep, mlookup_debitStep]
  by_cases hd : debitsB a t <;> by_cases hc : creditsB a t <;>
      cases hm : mlookup m a <;>
      simp [hd, hc, hm, mlookupD, mlookup_debitStep, Int.sub_eq_add_neg]

theorem mlookup_updateBalances (txs : List Tx) (m : BalMap) (a : String) :
    mlookup (updateBalances m txs) a =
      match mlookup m a with
      | some w => some (w + appliedDelta a txs)
      | none =>
        if touchesB a txs then some (appliedDelta a txs) else none := by
  induction txs generalizing m with
  | nil =>
    cases hm : mlookup m a <;> simp [updateBalances, appliedDelta, touchesB, hm]
  | cons t rest ih =>
    have hstep : updateBalances m (t :: rest) = updateBalances (applyTxBal m t) rest := by
      simp [updateBalances]
    rw [hstep, ih, mlookup_applyTxBal]
    by_cases ht : debitsB a t || creditsB a t
    · cases hm : mlookup m a <;>
        simp [hm, ht, appliedDelta, touchesB] <;> ring_nf
    · have ht' : debitsB a t = false ∧ creditsB a t = false := by
        constructor
        · cases hdb : debitsB a t
          · rfl
          · exact absurd (by simp [hdb]) ht
        · cases hcb : creditsB a t
          · rfl
          · exact absurd (by simp [hcb]) ht
      have hz : appliedDeltaT a t = 0 := by
        simp [appliedDeltaT, ht'.1, ht'.2]
      cases hm : mlookup m a <;>
        simp [hm, ht, appliedDelta, touchesB, hz]

theorem appliedDeltaT_eq_txDelta (a : String) (t : Tx) (h : goodAddr a) :
    appliedDeltaT a t = txDelta a t := by
  obtain ⟨h1, h2, h3⟩ := h
  simp only [appliedDeltaT, txDelta, debitsB, creditsB, h1, h2, h3]
  by_cases hf : t.from_ = some a <;> by_cases ht : t.to_ = a <;>
    simp [hf, ht, h1, h2, h3]

theorem appliedDelta_eq_blockSum (a : String) (txs : List Tx) (h : goodAddr a) :
    appliedDelta a txs = (txs.map (txDelta a)).sum := by
  unfold appliedDelta
  induction txs with
  | nil => simp
  | cons t rest ih => simp [ih, appliedDeltaT_eq_txDelta a t h]

theorem untouched_blockSum (a : String) (txs : List Tx) (hg : goodAddr a)
    (h : touchesB a txs = false) : (txs.map (txDelta a)).sum = 0 := by
  obtain ⟨h1, h2, h3⟩ := hg
  induction txs with
  | nil => simp
  | cons t rest ih =>
    rw [touchesB, List.any_cons] at h
    rcases Bool.or_eq_false_iff.mp h with ⟨hh, hrest⟩
    rcases Bool.or_eq_false_iff.mp hh with ⟨hd, hc⟩
    have hf : t.from_ ≠ some a := by
      intro hfa
      simp [debitsB, hfa, h1, h2] at hd
    have ht : t.to_ ≠ a := by
      intro hta
      simp [creditsB, hta, h1, h3] at hc
    simp [txDelta, hf, ht, ih hrest]

theorem chainLinked_append (c : List Block) (b : Block) (hl : ChainLinked c)
    (hne : c ≠ []) (hb : b.previousHash = (c.getLastD dummyBlock).hash) :
    ChainLinked (c ++ [b]) := by
  induction c with
  | nil => exact absurd rfl hne
  | cons x rest ih =>
    cases rest with
    | nil =>
      simp only [List.cons_append, List.nil_append]
      exact ⟨by simpa using hb, trivial⟩
    | cons y r =>
      obtain ⟨h1, h2⟩ := hl
      refine ⟨h1, ?_⟩
      exact ih h2 (by simp) (by simpa using hb)

theorem chainLinked_get (c : List Block) (hl : ChainLinked c) (i : Nat)
    (h2 : i < c.length) (h1 : 0 < i) :
    (c.get ⟨i, h2⟩).previousHash
      = (c.get ⟨i - 1, by omega⟩).hash := by
  induction c generalizing i with
  | nil => simp at h2
  | cons x rest ih =>
    cases rest with
    | nil =>
      simp at h2
      omega
    | cons y r =>
      obtain ⟨hxy, hl'⟩ := hl
      match i, h1 with
      | 1, _ => simpa using hxy
      | Nat.succ (Nat.succ j), _ =>
        have h2' : j + 1 < (y :: r).length := by
          simpa using h2
        have := ih hl' (j + 1) h2' (by omega)
        simpa using this

theorem chainFold_genesis (hashFn : HashInput → List Char) (a : String) :
    chainFold a [genesisBlock hashFn] = 0 := by
  simp only [chainFold, genesisBlock, mkBlock, List.flatMap_cons, List.flatMap_nil,
    List.append_nil, List.map_cons, List.map_nil, List.sum_cons, List.sum_nil, txDelta]
  split <;> split <;> simp

theorem inv_init (hashFn : HashInput → List Char) : LedgerInv (initState hashFn) := by
  refine ⟨by simp [initState], trivial, ?_, ?_⟩
  · intro a v _ hl
    simp [initState, mlookup] at hl
  · intro a _ _
    exact chainFold_genesis hashFn a

theorem inv_getBalanceSt (st : LState) (a : String) (h : LedgerInv st) :
    LedgerInv (getBalanceSt st a).2 := by
  unfold getBalanceSt
  cases hm : mlookup st.balances a with
  | some v => exact h
  | none =>
    refine ⟨h.ne, h.linked, ?_, ?_⟩
    · intro a' v' hg hl
      by_cases ha' : a' = a
      · subst ha'
        rw [mlookup_mset_self] at hl
        cases hl
        rfl
      · rw [mlookup_mset_ne _ _ _ _ ha'] at hl
        exact h.cached a' v' hg hl
    · intro a' hg hl
      by_cases ha' : a' = a
      · subst ha'
        rw [mlookup_mset_self] at hl
        cases hl
      · rw [mlookup_mset_ne _ _ _ _ ha'] at hl
        exact h.uncached a' hg hl

theorem inv_createTransaction (st : LState) (t : Tx) (h : LedgerInv st) :
    LedgerInv (createTransaction st t).1 := by
  unfold createTransaction
  by_cases hv : !t.isValid
  · simpa [hv] using h
  · rcases hf : t.from_ with _ | f
    · simpa [hv, hf] using ⟨h.ne, h.linked, h.cached, h.uncached⟩
    · by_cases hg : f ≠ "" ∧ f ≠ "system" ∧ t.type = TxType.transfer
      · simpa [hv, hf, hg] using inv_getBalanceSt st f h
      · simpa [hv, hf, hg] using ⟨h.ne, h.linked, h.cached, h.uncached⟩

theorem forgedBlock_previousHash (hashFn : HashInput → List Char) (now : Int)
    (rid : String) (rts : Int) (st : LState) (v : String) :
    (forgedBlock hashFn now rid rts st v).previousHash = (latestBlock st).hash := by
  simp [forgedBlock, forgeBlock, mkBlock]

theorem forgedBlock_transactions (hashFn : HashInput → List Char) (now : Int)
    (rid : String) (rts : Int) (st : LState) (v : String) :
    (forgedBlock hashFn now rid rts st v).transactions = forgeQueue rid rts st v := by
  simp [forgedBlock, forgeBlock, mkBlock]

theorem inv_forgeApplied (hashFn : HashInput → List Char) (now : Int)
    (rid : String) (rts : Int) (st : LState) (v : String)
    (h : LedgerInv st) : LedgerInv (forgeApplied hashFn now rid rts st v) := by
  set b := forgedBlock hashFn now rid rts st v with hb
  refine ⟨by simp [forgeApplied], ?_, ?_, ?_⟩
  · show ChainLinked (st.chain ++ [b])
    exact chainLinked_append st.chain b h.linked h.ne
      (by rw [hb, forgedBlock_previousHash]; rfl)
  · intro a w hg hl
    show w = chainFold a (st.chain ++ [b])
    have hl' : mlookup (updateBalances st.balances b.transactions) a = some w := hl
    rw [mlookup_updateBalances] at hl'
    rw [chainFold_append_block]
    cases hm : mlookup st.balances a with
    | some w0 =>
      rw [hm] at hl'
      cases hl'
      rw [← h.cached a w0 hg hm, appliedDelta_eq_blockSum a _ hg]
      rfl
    | none =>
      rw [hm] at hl'
      by_cases htc : touchesB a b.transactions
      · rw [if_pos htc] at hl'
        cases hl'
        rw [h.uncached a hg hm, appliedDelta_eq_blockSum a _ hg]
        simp [blockFold]
      · rw [if_neg htc] at hl'
        cases hl'
  · intro a hg hl
    show chainFold a (st.chain ++ [b]) = 0
    have hl' : mlookup (updateBalances st.balances b.transactions) a = none := hl
    rw [mlookup_updateBalances] at hl'
    rw [chainFold_append_block]
    cases hm : mlookup st.balances a with
    | some w0 =>
      rw [hm] at hl'
      cases hl'
    | none =>
      rw [hm] at hl'
      by_cases htc : touchesB a b.transactions
      · rw [if_pos htc] at hl'
        cases hl'
      · have h1 := h.uncached a hg hm
        have h2 := untouched_blockSum a b.transactions hg (by simpa using htc)
        rw [h1]
        simpa [blockFold] using h2

theorem inv_forgeWith (hashFn : HashInput → List Char) (now : Int)
    (rid : String) (rts : Int) (st : LState) (v : String)
    (h : LedgerInv st) : LedgerInv (forgeWith hashFn now rid rts st v).1 := by
  have h1 := inv_forgeApplied hashFn now rid rts st v h
  have h2 := inv_getBalanceSt (forgeApplied hashFn now rid rts st v) v h1
  exact ⟨h2.ne, h2.linked, h2.cached, h2.uncached⟩

theorem inv_lstep (hashFn : HashInput → List Char) (st st' : LState)
    (h : LedgerInv st) (hs : LStep hashFn st st') : LedgerInv st' := by
  cases hs with
  | submit t => exact inv_createTransaction st t h
  | query a => exact inv_getBalanceSt st a h
  | forge now rid rts v hv => exact inv_forgeWith hashFn now rid rts st v h
  | registry vs => exact ⟨h.ne, h.linked, h.cached, h.uncached⟩

theorem inv_reachable (hashFn : HashInput → List Char) (st : LState)
    (h : ReachableL hashFn st) : LedgerInv st := by
  induction h with
  | init => exact inv_init hashFn
  | step st st' _ hs ih => exact inv_lstep hashFn st st' ih hs

/-- Claim C1, as amended: in every reachable ledger state, every cached
balance of a non-sentinel address (not `''`, `'system'` or `'burn'`) equals
the fold of `(+amount where to==addr) − (amount where from==addr)` over all
transactions of all finalized blocks, independently of pending transactions
and of when the address was first queried.  (For the three sentinel
addresses the cache can diverge, because `updateBalances` never debits a
null/empty/`'system'` sender and never credits an empty/`'burn'`
recipient.) -/
theorem C1_cache_matches_chain_fold (hashFn : HashInput → List Char)
    (st : LState) (h : ReachableL hashFn st) (a : String) (v : Int)
    (h1 : a ≠ "") (h2 : a ≠ "system") (h3 : a ≠ "burn")
    (hc : mlookup st.balances a = some v) : v = chainFold a st.chain :=
  (inv_reachable hashFn st h).cached a v ⟨h1, h2, h3⟩ hc

theorem C1_witness : (0 : Int) = chainFold "alice" stC1w.chain :=
  C1_cache_matches_chain_fold cHashW stC1w
    (ReachableL.step _ _ ReachableL.init (LStep.query _ "alice"))
    "alice" 0 (by decide) (by decide) (by decide) (by decide)

/-- Claim C1, counterexample to the original statement: after caching
`'burn'` at 0, minting 5 tokens to `'burn'` and producing a block, the
reachable state has `balances['burn'] = 0` while the fold over the chain
gives 5 — an address present in the cache whose cached value differs from
the fold. -/
theorem C1_counterexample :
    ReachableL cHashW stC1c
    ∧ mlookup stC1c.balances "burn" = some 0
    ∧ chainFold "burn" stC1c.chain = 5
    ∧ (0 : Int) ≠ 5 := by
  refine ⟨?_, by decide, by decide, by decide⟩
  exact ReachableL.step _ _
    (ReachableL.step _ _
      (ReachableL.step _ _ ReachableL.init (LStep.query _ "burn"))
      (LStep.submit _ (createMintTransaction "m1" 0 "burn" 5)))
    (LStep.forge _ 1 "r1" 1 "v" (by decide))

/-- Claim C4: in every reachable ledger state (in particular after every
`produceBlock` call), every block's `previousHash` equals the previous
block's `hash`. -/
theorem C4_chain_linkage (hashFn : HashInput → List Char) (st : LState)
    (h : ReachableL hashFn st) (i : Nat) (h1 : 0 < i)
    (h2 : i < st.chain.length) :
    (st.chain.get ⟨i, h2⟩).previousHash
      = (st.chain.get ⟨i - 1, by omega⟩).hash :=
  chainLinked_get st.chain (inv_reachable hashFn st h).linked i h2 h1

theorem C4_witness :
    (stC4w.chain.get ⟨1, by decide⟩).previousHash
      = (stC4w.chain.get ⟨0, by decide⟩).hash :=
  C4_chain_linkage cHashW stC4w
    (ReachableL.step _ _ ReachableL.init (LStep.forge _ 1 "r" 1 "v" (by decide)))
    1 (by decide) (by decide)

/-- Claim C3, as amended: submitting an invalid transaction leaves the
whole state untouched and reports an error; submitting a valid transfer
whose sender is truthy and not the `'system'` sentinel and whose amount
exceeds the sender's balance reports an error and leaves the pending queue
and the chain unchanged, and leaves every balance entry unchanged
**except** that the sender's balance may be newly memoized (with exactly
its derived balance) by the `getBalance` read performed before the
rejection — the cache map itself is not exactly unchanged.  Transfers with
a null or `'system'` sender are exempt from the balance check altogether
(the admission guard is `from && from !== 'system'`): a valid transfer
from `'system'` — or any valid transaction with a null sender — is
enqueued with no error even when its amount exceeds the sender's derived
balance, so the insufficient-funds rejection does not extend to the
sentinel senders. -/
theorem C3_rejection_is_atomic (st : LState) (t : Tx) :
    (t.isValid = false → createTransaction st t = (st, some LErr.invalidTx))
    ∧ (∀ f, t.from_ = some f → f ≠ "" → f ≠ "system" →
        t.type = TxType.transfer → t.isValid = true →
        (getBalanceSt st f).1 < t.amount →
        Option.isSome (createTransaction st t).2 = true
        ∧ (createTransaction st t).1.pendingTransactions = st.pendingTransactions
        ∧ (createTransaction st t).1.chain = st.chain
        ∧ (∀ a, a ≠ f →
            mlookup (createTransaction st t).1.balances a = mlookup st.balances a)
        ∧ (∀ w, mlookup st.balances f = some w →
            mlookup (createTransaction st t).1.balances f = some w)
        ∧ (mlookup st.balances f = none →
            mlookup (createTransaction st t).1.balances f
              = some (chainFold f st.chain)))
    ∧ (t.from_ = none →
        createTransaction st t
          = ({ st with pendingTransactions := st.pendingTransactions ++ [t] }, none))
    ∧ (t.from_ = some "system" → t.isValid = true →
        createTransaction st t
          = ({ st with pendingTransactions := st.pendingTransactions ++ [t] }, none)) := by
  refine ⟨?_, ?_, ?_, ?_⟩
  · intro hv
    simp [createTransaction, hv]
  · intro f hf h1 h2 ht hv _
    have hct : createTransaction st t = ((getBalanceSt st f).2, some LErr.methodNotFound) := by
      simp [createTransaction, hv, hf, h1, h2, ht]
    rw [hct]
    unfold getBalanceSt
    cases hm : mlookup st.balances f with
    | some w =>
      exact ⟨rfl, rfl, rfl, fun a _ => rfl, fun w' hw' => hm.trans hw',
        fun hn => Option.noConfusion hn⟩
    | none =>
      exact ⟨rfl, rfl, rfl,
        fun a ha => mlookup_mset_ne _ _ _ _ ha,
        fun w' hw' => Option.noConfusion hw',
        fun _ => mlookup_mset_self _ _ _⟩
  · intro hf
    have hv : t.isValid = true := by
      simp [Tx.isValid, hf]
    simp [createTransaction, hv, hf]
  · intro hf hv
    simp [createTransaction, hv, hf]

theorem C3_witness :
    (Option.isSome (createTransaction (initState cHashW) txC3).2 = true
     ∧ (createTransaction (initState cHashW) txC3).1.pendingTransactions
         = (initState cHashW).pendingTransactions
     ∧ (createTransaction (initState cHashW) txC3).1.chain = (initState cHashW).chain
     ∧ (∀ a, a ≠ "alice" →
         mlookup (createTransaction (initState cHashW) txC3).1.balances a
           = mlookup (initState cHashW).balances a)
     ∧ (∀ w, mlookup (initState cHashW).balances "alice" = some w →
         mlookup (createTransaction (initState cHashW) txC3).1.balances "alice" = some w)
     ∧ (mlookup (initState cHashW).balances "alice" = none →
         mlookup (createTransaction (initState cHashW) txC3).1.balances "alice"
           = some (chainFold "alice" (initState cHashW).chain)))
    ∧ createTransaction (initState cHashW) txC2
        = ({ initState cHashW with pendingTransactions :=
              (initState cHashW).pendingTransactions ++ [txC2] }, none) :=
  ⟨(C3_rejection_is_atomic (initState cHashW) txC3).2.1 "alice" (by decide)
      (by decide) (by decide) (by decide) (by decide) (by decide),
    (C3_rejection_is_atomic (initState cHashW) txC2).2.2.2 (by decide) (by decide)⟩

/-- Claim C3, counterexample to the original statement, which fails in two
ways.  First, on a fresh ledger an insufficient transfer from the
never-queried sender `alice` is rejected with an error, yet the `balances`
map is **not** exactly unchanged — the rejection path's `getBalance` read
memoizes `alice ↦ 0`.  Second, a valid transfer from `'system'` whose
amount (5) exceeds `'system'`'s derived balance (cached at 0) is admitted
into the pending queue with **no** error — the admission guard
`from && from !== 'system'` exempts the `'system'` sender from the balance
check entirely. -/
theorem C3_counterexample :
    txC3.isValid = true
    ∧ (getBalanceSt (initState cHashW) "alice").1 < txC3.amount
    ∧ Option.isSome (createTransaction (initState cHashW) txC3).2 = true
    ∧ (createTransaction (initState cHashW) txC3).1.balances
        ≠ (initState cHashW).balances
    ∧ txC2.isValid = true
    ∧ (getBalanceSt stC2a "system").1 < txC2.amount
    ∧ (createTransaction stC2a txC2).2 = none
    ∧ (createTransaction stC2a txC2).1.pendingTransactions
        = stC2a.pendingTransactions ++ [txC2] := by
  decide

/-- Claim C9, as amended: for every transfer whose sender is truthy and not
`'system'` **and which passes `isValid()`**, `createTransaction` reaches
`transaction.getTotalCost()` — a method no transaction class in the
repository defines — so the submission fails with the method-not-found
error before any balance comparison, leaving the pending queue (and the
chain) unchanged.  (A transfer in this sender range that fails `isValid()`
is instead rejected up front with the invalid-transaction error.) -/
theorem C9_getTotalCost_unreachable_check (st : LState) (t : Tx) (f : String)
    (hf : t.from_ = some f) (h1 : f ≠ "") (h2 : f ≠ "system")
    (ht : t.type = TxType.transfer) (hv : t.isValid = true) :
    (createTransaction st t).2 = some LErr.methodNotFound
    ∧ (createTransaction st t).1.pendingTransactions = st.pendingTransactions
    ∧ (createTransaction st t).1.chain = st.chain := by
  have hct : createTransaction st t = ((getBalanceSt st f).2, some LErr.methodNotFound) := by
    simp [createTransaction, hv, hf, h1, h2, ht]
  rw [hct]
  unfold getBalanceSt
  cases hm : mlookup st.balances f <;> simp [hm]

theorem C9_witness :
    (createTransaction (initState cHashW) txC3).2 = some LErr.methodNotFound
    ∧ (createTransaction (initState cHashW) txC3).1.pendingTransactions
        = (initState cHashW).pendingTransactions
    ∧ (createTransaction (initState cHashW) txC3).1.chain = (initState cHashW).chain :=
  C9_getTotalCost_unreachable_check (initState cHashW) txC3 "alice" (by decide)
    (by decide) (by decide) (by decide) (by decide)

/-- Claim C9, counterexample to the original statement: a zero-amount
transfer from `alice` (neither null nor `'system'`) fails `isValid()` and
is rejected with the invalid-transaction error, not with the
method-not-found error, so not *every* such submission dies at
`getTotalCost`. -/
theorem C9_counterexample :
    ({ txC3 with amount := 0 } : Tx).from_ = some "alice"
    ∧ ({ txC3 with amount := 0 } : Tx).type = TxType.transfer
    ∧ (createTransaction (initState cHashW) { txC3 with amount := 0 }).2
        = some LErr.invalidTx
    ∧ some LErr.invalidTx ≠ some LErr.methodNotFound := by
  decide

/-- Claim C6, as amended: `isValid()` never throws (it is a total boolean
predicate); it returns true unconditionally whenever `from` is null or the
type is mint, reward or genesis; for a transfer with a non-null sender it
returns true **iff** `from` is non-empty, `to` is non-empty and the amount
is positive — the signature is never examined, neither for presence nor by
a verification call (the source is deliberately "lenient about signatures"
for demo purposes). -/
theorem C6_isValid_characterization (t : Tx) :
    ((t.from_ = none ∨ t.type = TxType.mint ∨ t.type = TxType.reward
        ∨ t.type = TxType.genesis) → t.isValid = true)
    ∧ (∀ f, t.from_ = some f → t.type = TxType.transfer →
        (t.isValid = true ↔ (f ≠ "" ∧ t.to_ ≠ "" ∧ 0 < t.amount)))
    ∧ (∀ s, Tx.isValid { t with signature := s } = t.isValid) := by
  refine ⟨?_, ?_, fun s => rfl⟩
  · intro h
    rcases h with h | h | h | h <;> simp [Tx.isValid, h]
  · intro f hf ht
    constructor
    · intro hv
      by_cases h1 : f = ""
      · simp [Tx.isValid, hf, ht, h1, truthyStr] at hv
      · by_cases h2 : t.to_ = ""
        · simp [Tx.isValid, hf, ht, h1, h2, truthyStr] at hv
        · by_cases h3 : t.amount ≤ 0
          · simp [Tx.isValid, hf, ht, h1, h2, h3, truthyStr] at hv
          · exact ⟨h1, h2, by omega⟩
    · rintro ⟨h1, h2, h3⟩
      have h3' : ¬ t.amount ≤ 0 := by omega
      simp [Tx.isValid, hf, ht, h1, h2, h3', truthyStr]

theorem C6_witness :
    Tx.isValid { txC6 with type := TxType.mint } = true
    ∧ (txC6.isValid = true ↔ ("a" ≠ "" ∧ txC6.to_ ≠ "" ∧ (0 : Int) < txC6.amount))
    ∧ Tx.isValid { txC6 with signature := some "sig" } = txC6.isValid :=
  ⟨(C6_isValid_characterization { txC6 with type := TxType.mint }).1
      (Or.inr (Or.inl rfl)),
    (C6_isValid_characterization txC6).2.1 "a" rfl rfl,
    (C6_isValid_characterization txC6).2.2 (some "sig")⟩

/-- Claim C6, counterexample to the original statement: a transfer with a
non-null sender, non-empty addresses, positive amount and a **null
signature** (and no verification possible) is accepted by `isValid()`,
although the claim requires a non-null signature or a successful
verification for transfers. -/
theorem C6_counterexample :
    txC6.type = TxType.transfer
    ∧ txC6.from_ = some "a"
    ∧ txC6.signature = none
    ∧ txC6.isValid = true := by
  decide

/-- Claim C10: `mintTokens(to, amount)` succeeds for every recipient and
every amount (including zero and negative): the mint transaction has a null
sender, is unconditionally valid, bypasses the transfer-only balance check,
and is appended to the pending queue; and once a block is forged, a
negative mint strictly lowers the recipient's derived balance relative to
forging without it (its contribution to the chain fold is exactly
`amount`). -/
theorem C10_mint_unchecked_amount (id : String) (ts : Int) (st : LState)
    (recipient : String) (amount : Int) :
    (mintTokens id ts st recipient amount).2 = none
    ∧ (mintTokens id ts st recipient amount).1
        = { st with pendingTransactions :=
              st.pendingTransactions ++ [createMintTransaction id ts recipient amount] }
    ∧ (createMintTransaction id ts recipient amount).isValid = true
    ∧ (∀ (hashFn : HashInput → List Char) (now : Int) (rid : String) (rts : Int)
          (v : String), v ≠ "" → amount < 0 →
        chainFold recipient
            (forgeWith hashFn now rid rts (mintTokens id ts st recipient amount).1 v).1.chain
          < chainFold recipient (forgeWith hashFn now rid rts st v).1.chain) := by
  have hmt : mintTokens id ts st recipient amount
      = ({ st with pendingTransactions :=
            st.pendingTransactions ++ [createMintTransaction id ts recipient amount] },
          none) := by
    simp [mintTokens, createTransaction, createMintTransaction, Tx.isValid]
  refine ⟨by rw [hmt], by rw [hmt], by simp [createMintTransaction, Tx.isValid], ?_⟩
  intro hashFn now rid rts v _ hneg
  rw [hmt]
  have hc1 : (forgeWith hashFn now rid rts
      ({ st with pendingTransactions :=
          st.pendingTransactions ++ [createMintTransaction id ts recipient amount] }) v).1.chain
      = ({ st with pendingTransactions :=
          st.pendingTransactions ++ [createMintTransaction id ts recipient amount] } : LState).chain
        ++ [forgedBlock hashFn now rid rts
            { st with pendingTransactions :=
              st.pendingTransactions ++ [createMintTransaction id ts recipient amount] } v] := by
    simp [forgeWith, forgeApplied, getBalanceSt]
    split <;> rfl
  have hc0 : (forgeWith hashFn now rid rts st v).1.chain
      = st.chain ++ [forgedBlock hashFn now rid rts st v] := by
    simp [forgeWith, forgeApplied, getBalanceSt]
    split <;> rfl
  rw [hc1, hc0]
  rw [chainFold_append_block, chainFold_append_block]
  have hblocks : blockFold recipient
      (forgedBlock hashFn now rid rts
        { st with pendingTransactions :=
          st.pendingTransactions ++ [createMintTransaction id ts recipient amount] } v)
      = blockFold recipient (forgedBlock hashFn now rid rts st v) + amount := by
    rw [blockFold, blockFold, forgedBlock_transactions, forgedBlock_transactions]
    simp [forgeQueue, createMintTransaction, txDelta]
    ring
  simp only [hblocks]
  omega

theorem C10_witness :
    chainFold "alice"
        (forgeWith cHashW 1 "r" 1 (mintTokens "m" 0 (initState cHashW) "alice" (-7)).1 "v").1.chain
      < chainFold "alice" (forgeWith cHashW 1 "r" 1 (initState cHashW) "v").1.chain :=
  (C10_mint_unchecked_amount "m" 0 (initState cHashW) "alice" (-7)).2.2.2
    cHashW 1 "r" 1 "v" (by decide) (by decide)

/-- A `foldl` run of the auto-promotion loop adds nothing when every cached
balance is below the minimum stake. -/
theorem promote_fold_nil (m : BalMap) (vs : BalMap)
    (h : ∀ p ∈ m, p.2 < 1000) :
    m.foldl (fun vs p => if p.2 ≥ 1000 then mset vs p.1 p.2 else vs) vs = vs := by
  induction m generalizing vs with
  | nil => rfl
  | cons p rest ih =>
    have hp : ¬ p.2 ≥ 1000 := by
      have := h p (List.mem_cons_self p rest)
      omega
    simp only [List.foldl_cons, if_neg hp]
    exact ih vs (fun q hq => h q (List.mem_cons_of_mem p hq))

/-- Claim C7, as amended: when no validator is registered and no cached
address can be auto-promoted (every cached balance is below 1000),
`produceBlock` with no explicit address reports "no producer available"
(`null`) and changes nothing — chain, balances, pending queue and validator
registry are all untouched, and the pending transactions remain queued.
However, an **empty pending queue does not abort production**: when a
producer is available, `forgePendingTransactions` forges a block containing
only the reward transaction — there is no empty-queue guard in the method
(only the auto-forging timer checks `pendingTransactions.length > 0`), so
the claimed distinct "nothing to do" report does not exist. -/
theorem C7_no_producer_vs_empty_queue (hashFn : HashInput → List Char)
    (now : Int) (rid : String) (rts : Int) (st : LState) :
    (st.validators = [] → (∀ p ∈ st.balances, p.2 < 1000) →
      ∀ pick, forgePendingTransactions hashFn now rid rts st none pick = (st, none))
    ∧ (∀ v, v ≠ "" → st.pendingTransactions = [] →
        ∀ pick, ∃ b : Block,
          (forgePendingTransactions hashFn now rid rts st (some v) pick).2 = some b
          ∧ b.transactions = [createMintTransaction rid rts v st.miningReward]
          ∧ (forgePendingTransactions hashFn now rid rts st (some v) pick).1.chain
              = st.chain ++ [b]) := by
  constructor
  · intro hvs hbal pick
    have hpromote : promoteValidators st = st.validators := by
      rw [promoteValidators, if_pos hvs, hvs]
      exact promote_fold_nil st.balances [] hbal
    show forgePendingTransactions.forgeSelecting hashFn now rid rts st pick = (st, none)
    rw [forgePendingTransactions.forgeSelecting.eq_def, hpromote]
    have hst : { st with validators := st.validators } = st := rfl
    rw [hst, if_pos hvs]
  · intro v hv hpend pick
    refine ⟨forgedBlock hashFn now rid rts st v, ?_, ?_, ?_⟩
    · simp [forgePendingTransactions, hv, forgeWith]
    · rw [forgedBlock_transactions, forgeQueue, hpend, List.nil_append]
    · have h2 : (forgePendingTransactions hashFn now rid rts st (some v) pick).1
          = (forgeWith hashFn now rid rts st v).1 := by
        simp [forgePendingTransactions, hv]
      rw [h2]
      show ({ (getBalanceSt (forgeApplied hashFn now rid rts st v) v).2 with
        validators := _, pendingTransactions := [] } : LState).chain = _
      unfold getBalanceSt
      cases hm : mlookup (forgeApplied hashFn now rid rts st v).balances v <;> rfl

theorem C7_witness :
    forgePendingTransactions cHashW 1 "r" 1 (initState cHashW) none none
        = (initState cHashW, none)
    ∧ ∃ b : Block,
        (forgePendingTransactions cHashW 1 "r" 1 (initState cHashW) (some "v") none).2
            = some b
        ∧ b.transactions = [createMintTransaction "r" 1 "v" (initState cHashW).miningReward]
        ∧ (forgePendingTransactions cHashW 1 "r" 1 (initState cHashW) (some "v") none).1.chain
            = (initState cHashW).chain ++ [b] :=
  ⟨(C7_no_producer_vs_empty_queue cHashW 1 "r" 1 (initState cHashW)).1
      (by decide) (by decide) none,
    (C7_no_producer_vs_empty_queue cHashW 1 "r" 1 (initState cHashW)).2 "v"
      (by decide) (by decide) none⟩

/-- Claim C7, counterexample to the original statement: calling
`produceBlock` with an **empty pending queue** but an explicit producer does
change state — the chain grows from 1 to 2 blocks (a reward-only block is
forged) — contradicting "this likewise results in no state change". -/
theorem C7_counterexample :
    (initState cHashW).pendingTransactions = []
    ∧ (initState cHashW).chain.length = 1
    ∧ (forgePendingTransactions cHashW 1 "r" 1 (initState cHashW)
        (some "v") none).1.chain.length = 2 := by
  decide

theorem hitsTarget_spec (d : Nat) (b : Block) (h : hitsTarget d b = true) :
    d ≤ b.hash.length ∧ b.hash.take d = List.replicate d '0' := by
  have ht : b.hash.take d = List.replicate d '0' := by
    simpa [hitsTarget] using h
  refine ⟨?_, ht⟩
  have hl := congrArg List.length ht
  simp [List.length_take] at hl
  omega

theorem mineStep_hash (hashFn : HashInput → List Char) (b : Block) :
    (mineStep hashFn b).hash = calculateHash hashFn (mineStep hashFn b) := rfl

/-- Claim C8: whenever `mineBlock(d)` terminates, the final hash has at
least `d` leading `'0'` characters (it is at least `d` characters long and
its `substring(0, d)` is all zeros), and — provided the block's stored hash
equalled `calculateHash()` at entry, as the constructor guarantees — the
final hash equals `calculateHash()` over the block's final fields;
moreover for `d = 0` the loop guard is satisfied immediately, so mining
always terminates at once with zero loop iterations and an unchanged
block. -/
theorem C8_mineBlock_difficulty (hashFn : HashInput → List Char) (d fuel : Nat)
    (b b' : Block) (n : Nat) (h : mineBlock hashFn d fuel b = some (b', n)) :
    (d ≤ b'.hash.length ∧ b'.hash.take d = List.replicate d '0')
    ∧ (b.hash = calculateHash hashFn b → b'.hash = calculateHash hashFn b')
    ∧ (d = 0 → b' = b ∧ n = 0)
    ∧ (∀ b0 : Block, mineBlock hashFn 0 fuel b0 = some (b0, 0)) := by
  have hzero : ∀ (m : Nat) (b0 : Block), mineBlock hashFn 0 m b0 = some (b0, 0) := by
    intro m b0
    have hh : hitsTarget 0 b0 = true := by simp [hitsTarget]
    cases m <;> simp [mineBlock, hh]
  induction fuel generalizing b n with
  | zero =>
    rw [mineBlock] at h
    by_cases hh : hitsTarget d b = true
    · rw [if_pos hh] at h
      obtain ⟨hb1, hn1⟩ : b' = b ∧ n = 0 := by
        cases h
        exact ⟨rfl, rfl⟩
      subst hb1
      subst hn1
      exact ⟨hitsTarget_spec d b' hh, fun hc => hc, fun _ => ⟨rfl, rfl⟩, hzero 0⟩
    · rw [if_neg hh] at h
      cases h
  | succ m ih =>
    rw [mineBlock] at h
    by_cases hh : hitsTarget d b = true
    · rw [if_pos hh] at h
      obtain ⟨hb1, hn1⟩ : b' = b ∧ n = 0 := by
        cases h
        exact ⟨rfl, rfl⟩
      subst hb1
      subst hn1
      exact ⟨hitsTarget_spec d b' hh, fun hc => hc, fun _ => ⟨rfl, rfl⟩, hzero (m + 1)⟩
    · rw [if_neg hh] at h
      cases hrec : mineBlock hashFn d m (mineStep hashFn b) with
      | none => rw [hrec] at h; cases h
      | some p =>
        obtain ⟨b'', n''⟩ := p
        rw [hrec] at h
        obtain ⟨hb1, hn1⟩ : b' = b'' ∧ n = n'' + 1 := by
          cases h
          exact ⟨rfl, rfl⟩
        subst hb1
        subst hn1
        obtain ⟨hA, hB, hC, _⟩ := ih (mineStep hashFn b) n'' hrec
        refine ⟨hA, fun _ => hB (mineStep_hash hashFn b), ?_, hzero (m + 1)⟩
        intro hd
        subst hd
        have : hitsTarget 0 b = true := by simp [hitsTarget]
        exact absurd this hh

theorem C8_witness :
    ((1 ≤ (mineStep hashW0 blkW).hash.length
      ∧ (mineStep hashW0 blkW).hash.take 1 = List.replicate 1 '0')
     ∧ (blkW.hash = calculateHash hashW0 blkW →
        (mineStep hashW0 blkW).hash = calculateHash hashW0 (mineStep hashW0 blkW))
     ∧ ((1 : Nat) = 0 → mineStep hashW0 blkW = blkW ∧ (1 : Nat) = 0)
     ∧ (∀ b0 : Block, mineBlock hashW0 0 1 b0 = some (b0, 0))) :=
  C8_mineBlock_difficulty hashW0 1 1 blkW (mineStep hashW0 blkW) 1 (by decide)

theorem getBalanceSt_cached (st : LState) (a : String)
    (h : Option.isSome (mlookup st.balances a) = true) :
    (getBalanceSt st a).2 = st := by
  unfold getBalanceSt
  cases hm : mlookup st.balances a with
  | some w => rfl
  | none => rw [hm] at h; cases h

/-- After `updateBalances` on the forged block, the validator's entry is
present whenever the validator is a truthy, non-`'burn'` address, because
the reward transaction credits it. -/
theorem forgeApplied_validator_cached (hashFn : HashInput → List Char)
    (now : Int) (rid : String) (rts : Int) (st : LState) (v : String)
    (hv : v ≠ "") (hvb : v ≠ "burn") :
    Option.isSome (mlookup (forgeApplied hashFn now rid rts st v).balances v) = true := by
  show Option.isSome
    (mlookup (updateBalances st.balances (forgedBlock hashFn now rid rts st v).transactions) v)
      = true
  rw [mlookup_updateBalances]
  cases hm : mlookup st.balances v with
  | some w => simp
  | none =>
    have htv : touchesB v (forgedBlock hashFn now rid rts st v).transactions = true := by
      rw [forgedBlock_transactions, forgeQueue]
      unfold touchesB
      rw [List.any_append]
      simp [creditsB, createMintTransaction, hv, hvb]
    simp [htv]

theorem forgeWith_fst (hashFn : HashInput → List Char) (now : Int)
    (rid : String) (rts : Int) (st : LState) (v : String)
    (hv : v ≠ "") (hvb : v ≠ "burn") :
    (forgeWith hashFn now rid rts st v).1
      = { forgeApplied hashFn now rid rts st v with
          validators := updValidatorStake
            (forgeApplied hashFn now rid rts st v).validators v
            (getBalanceSt (forgeApplied hashFn now rid rts st v) v).1,
          pendingTransactions := [] } := by
  unfold forgeWith
  dsimp only
  rw [getBalanceSt_cached _ _ (forgeApplied_validator_cached hashFn now rid rts st v hv hvb)]

/-- Claim C2, as amended: a successful `produceBlock` with producer `v`
(truthy and not the `'burn'` sentinel) on a queue `P` appends exactly one
block; its transactions are `P` followed by a single reward transaction
(`from = null`, type `mint`, amount `miningReward`, recipient `v`); its
`previousHash` is the previously-latest block's hash; the queue is empty
afterwards; and the cache is updated by exactly the new block's deltas
**as applied by `updateBalances`** — debits skipped for a null/empty or
`'system'` sender, credits skipped for an empty or `'burn'` recipient, and
an address absent from the cache is only materialized if one of its deltas
is actually applied. -/
theorem C2_forge_appends_one_block (hashFn : HashInput → List Char)
    (now : Int) (rid : String) (rts : Int) (st : LState) (v : String)
    (pick : Option String) (hv : v ≠ "") (hvb : v ≠ "burn") :
    ∃ b : Block,
      (forgePendingTransactions hashFn now rid rts st (some v) pick).2 = some b
      ∧ (forgePendingTransactions hashFn now rid rts st (some v) pick).1.chain
          = st.chain ++ [b]
      ∧ b.transactions
          = st.pendingTransactions ++ [createMintTransaction rid rts v st.miningReward]
      ∧ b.previousHash = (latestBlock st).hash
      ∧ (forgePendingTransactions hashFn now rid rts st (some v) pick).1.pendingTransactions
          = []
      ∧ (∀ a, mlookup
            (forgePendingTransactions hashFn now rid rts st (some v) pick).1.balances a
          = match mlookup st.balances a with
            | some w => some (w + appliedDelta a b.transactions)
            | none =>
              if touchesB a b.transactions then some (appliedDelta a b.transactions)
              else none) := by
  have hr : forgePendingTransactions hashFn now rid rts st (some v) pick
      = ((forgeWith hashFn now rid rts st v).1,
          some (forgedBlock hashFn now rid rts st v)) := by
    simp [forgePendingTransactions, hv, forgeWith]
  refine ⟨forgedBlock hashFn now rid rts st v, by rw [hr], ?_, ?_, ?_, ?_, ?_⟩
  · rw [hr, forgeWith_fst hashFn now rid rts st v hv hvb]
    rfl
  · rw [forgedBlock_transactions, forgeQueue]
  · exact forgedBlock_previousHash hashFn now rid rts st v
  · rw [hr, forgeWith_fst hashFn now rid rts st v hv hvb]
  · intro a
    rw [hr, forgeWith_fst hashFn now rid rts st v hv hvb]
    show mlookup (updateBalances st.balances
        (forgedBlock hashFn now rid rts st v).transactions) a = _
    rw [mlookup_updateBalances]

/-- The C2 witness: a forge with explicit producer `"val"` on the fresh
ledger. -/
theorem C2_witness :
    ∃ b : Block,
      (forgePendingTransactions cHashW 1 "r" 1 (initState cHashW) (some "val") none).2
          = some b
      ∧ (forgePendingTransactions cHashW 1 "r" 1 (initState cHashW)
            (some "val") none).1.chain = (initState cHashW).chain ++ [b]
      ∧ b.transactions = (initState cHashW).pendingTransactions
          ++ [createMintTransaction "r" 1 "val" (initState cHashW).miningReward]
      ∧ b.previousHash = (latestBlock (initState cHashW)).hash
      ∧ (forgePendingTransactions cHashW 1 "r" 1 (initState cHashW)
            (some "val") none).1.pendingTransactions = []
      ∧ (∀ a, mlookup
            (forgePendingTransactions cHashW 1 "r" 1 (initState cHashW)
              (some "val") none).1.balances a
          = match mlookup (initState cHashW).balances a with
            | some w => some (w + appliedDelta a b.transactions)
            | none =>
              if touchesB a b.transactions then some (appliedDelta a b.transactions)
              else none) :=
  C2_forge_appends_one_block cHashW 1 "r" 1 (initState cHashW) "val" none
    (by decide) (by decide)

/-- Claim C2, counterexample to the original statement: forging the queued
`system → a` transfer produces a block whose delta for address `'system'`
is −5, yet the cached balance of `'system'` stays 0 (old value 0, claimed
new value 0 + (−5) = −5): the cache is **not** updated by exactly the new
block's deltas, because `updateBalances` never debits the `'system'`
sender. -/
theorem C2_counterexample :
    ReachableL cHashW stC2b
    ∧ Option.isSome
        (forgePendingTransactions cHashW 1 "r" 1 stC2b (some "v") none).2 = true
    ∧ mlookup stC2b.balances "system" = some 0
    ∧ blockFold "system"
        (((forgePendingTransactions cHashW 1 "r" 1 stC2b (some "v") none).1.chain).getLastD
          dummyBlock) = -5
    ∧ mlookup
        (forgePendingTransactions cHashW 1 "r" 1 stC2b (some "v") none).1.balances
        "system" = some 0
    ∧ ((0 : Int) + (-5) ≠ (0 : Int)) := by
  refine ⟨?_, by decide, by decide, by decide, by decide, by decide⟩
  exact ReachableL.step _ _
    (ReachableL.step _ _ ReachableL.init (LStep.query _ "system"))
    (LStep.submit _ txC2)

theorem isChainValidAux_cons (hashFn : HashInput → List Char) (prev cur : Block)
    (rest : List Block) :
    isChainValidAux hashFn prev (cur :: rest) = true
      ↔ (blockOk hashFn prev cur ∧ isChainValidAux hashFn cur rest = true) := by
  simp only [isChainValidAux, blockOk]
  by_cases h1 : cur.isValidStructure <;>
    by_cases h2 : cur.hasValidTransactions <;>
    by_cases h3 : cur.hash = calculateHash hashFn cur <;>
    by_cases h4 : cur.previousHash = prev.hash <;>
    simp [h1, h2, h3, h4]

theorem isChainValidAux_iff (hashFn : HashInput → List Char) (rest : List Block)
    (prev : Block) :
    isChainValidAux hashFn prev rest = true
      ↔ ∀ j : Fin rest.length,
          blockOk hashFn
            ((prev :: rest).get ⟨j.val, Nat.lt_succ_of_lt j.isLt⟩)
            (rest.get j) := by
  induction rest generalizing prev with
  | nil =>
    constructor
    · intro _ j
      exact absurd j.isLt (by simp)
    · intro _
      rfl
  | cons cur rest ih =>
    rw [isChainValidAux_cons, ih cur]
    constructor
    · rintro ⟨hok, hrest⟩ j
      match j with
      | ⟨0, _⟩ => exact hok
      | ⟨k + 1, hk⟩ =>
        exact hrest ⟨k, by simpa using hk⟩
    · intro h
      refine ⟨h ⟨0, by simp⟩, ?_⟩
      intro j
      exact h ⟨j.val + 1, by simpa using j.isLt⟩

/-- Claim C5: `isChainValid()` is a total boolean function (in the source
the whole walk is inside `try/catch`, and every check in this embedding is
total, so the catch branch is dead and no exception escapes); it walks
blocks from index 1 in order, checking structure, per-transaction validity,
stored hash against a fresh `calculateHash()` recomputation, and linkage to
the previous block, stopping at the first failure; it returns `true` iff
every block at index `i ≥ 1` passes all four checks, and the genesis block
at index 0 is itself never checked. -/
theorem C5_isChainValid_iff (hashFn : HashInput → List Char) (chain : List Block) :
    isChainValid hashFn chain = true
      ↔ ∀ i : Fin chain.length, 0 < i.val →
          ((chain.get i).isValidStructure = true
           ∧ (chain.get i).hasValidTransactions = true
           ∧ (chain.get i).hash = calculateHash hashFn (chain.get i)
           ∧ (chain.get i).previousHash
               = (chain.get ⟨i.val - 1,
                   Nat.lt_of_le_of_lt (Nat.sub_le i.val 1) i.isLt⟩).hash) := by
  cases chain with
  | nil =>
    constructor
    · intro _ i
      exact absurd i.isLt (by simp)
    · intro _
      rfl
  | cons g rest =>
    show isChainValidAux hashFn g rest = true ↔ _
    rw [isChainValidAux_iff hashFn rest g]
    constructor
    · intro h i hi
      match i, hi with
      | ⟨j + 1, hj⟩, _ =>
        exact h ⟨j, by simpa using hj⟩
    · intro h j
      exact h ⟨j.val + 1, by simpa using j.isLt⟩ (Nat.succ_pos j.val)

theorem C5_witness :
    ∀ i : Fin stC4w.chain.length, 0 < i.val →
      ((stC4w.chain.get i).isValidStructure = true
       ∧ (stC4w.chain.get i).hasValidTransactions = true
       ∧ (stC4w.chain.get i).hash = calculateHash cHashW (stC4w.chain.get i)
       ∧ (stC4w.chain.get i).previousHash
           = (stC4w.chain.get ⟨i.val - 1,
               Nat.lt_of_le_of_lt (Nat.sub_le i.val 1) i.isLt⟩).hash) :=
  (C5_isChainValid_iff cHashW stC4w.chain).mp (by decide)
